import Mathlib

/-!
# Verification of mkdb's planning and storage layers

A shallow embedding, in Lean 4, of the slices of the `mkdb` relational
database that its specification covers: the tuple binary codec
(`src/storage/tuple.rs`), the block-aligned pager I/O (`src/paging/io.rs`),
the SQL tokenizer (`src/sql/tokenizer.rs`), the semantic analyzer
(`src/sql/analyzer.rs`) and the plan generator (`src/query/planner.rs`).

Rust data is modelled as follows: `Vec<u8>` buffers are `List Nat` (each
entry a byte value), `String` is Lean's `String` (a list of Unicode scalar
values, as in Rust), `i128` is `Int` with explicit wrap-around arithmetic
where the code truncates, and functions that can `panic!`, `unreachable!`
or `todo!` return `Option`/`Except` with `none` (or a dedicated error) at
the panicking control paths.
-/

namespace Mkdb

/-! ## SQL data model (`src/sql/statement.rs`) -/

/-- `DataType` from `statement.rs`: SQL data types.  `Varchar` carries the
maximum number of characters. -/
inductive DataType where
  | int
  | unsignedInt
  | bigInt
  | unsignedBigInt
  | bool
  | varchar (max : Nat)
deriving DecidableEq, Repr

/-- `Value` from `statement.rs`: resolved values from expressions.  The
`number` payload models Rust's `i128`. -/
inductive Value where
  | string (s : String)
  | bool (b : Bool)
  | number (n : Int)
deriving DecidableEq, Repr

/-- `BinaryOperator` from `statement.rs`. -/
inductive BinaryOperator where
  | eq | neq | lt | ltEq | gt | gtEq | plus | minus | mul | div | and | or
deriving DecidableEq, Repr

/-- `UnaryOperator` from `statement.rs`. -/
inductive UnaryOperator where
  | plus | minus
deriving DecidableEq, Repr

/-- `Expression` from `statement.rs`: expression trees used in statements. -/
inductive Expression where
  | identifier (ident : String)
  | value (v : Value)
  | wildcard
  | binaryOperation (left : Expression) (operator : BinaryOperator) (right : Expression)
  | unaryOperation (operator : UnaryOperator) (expr : Expression)
  | nested (expr : Expression)
deriving DecidableEq, Repr

/-- `Constraint` from `statement.rs`. -/
inductive Constraint where
  | primaryKey
  | unique
deriving DecidableEq, Repr

/-- `Column` from `statement.rs`: name, data type, constraints. -/
structure Column where
  name : String
  data_type : DataType
  constraints : List Constraint
deriving DecidableEq, Repr

/-- `Assignment` from `statement.rs`: one `SET col = expr` item. -/
structure Assignment where
  identifier : String
  value : Expression
deriving DecidableEq, Repr

/-- `Schema` (declared in the `db` module; its shape is given by the spec's
data model section and by every use in the excerpt): an ordered sequence of
columns.  The auxiliary name-to-index map of the Rust struct is modelled by
`index_of` below, which returns the position of the column with the given
name. -/
structure Schema where
  columns : List Column
deriving DecidableEq, Repr

/-- `Schema::index_of`: position of the column named `name`. -/
def Schema.index_of (s : Schema) (name : String) : Option Nat :=
  s.columns.findIdx? (fun c => c.name == name)

/-- `Schema::empty()`. -/
def Schema.empty : Schema := ⟨[]⟩

/-- Number of columns (`Schema::len`). -/
def Schema.len (s : Schema) : Nat := s.columns.length

/-- Column lookup by name: `index_of` followed by indexing, fused into one
`Option` so that the (impossible) out-of-bounds index is not a separate
panic path. -/
def Schema.column_of (s : Schema) (name : String) : Option Column :=
  (s.index_of name).bind fun i => s.columns.get? i

/-! ## UTF-8 byte model

Rust `String`s are UTF-8 encoded; `string.as_bytes()` yields the UTF-8
bytes.  We model the encoding explicitly so that byte lengths and byte
buffers agree with the Rust ones. -/

/-- UTF-8 encoding of one Unicode scalar value, as a list of byte values.
Matches `char::encode_utf8` in Rust. -/
def utf8EncodeChar (c : Char) : List Nat :=
  let n := c.toNat
  if n < 0x80 then [n]
  else if n < 0x800 then [0xC0 + n / 64, 0x80 + n % 64]
  else if n < 0x10000 then [0xE0 + n / 4096, 0x80 + n / 64 % 64, 0x80 + n % 64]
  else [0xF0 + n / 0x40000, 0x80 + n / 4096 % 64, 0x80 + n / 64 % 64, 0x80 + n % 64]

/-- The UTF-8 bytes of a string: Rust's `string.as_bytes()`. -/
def stringBytes (s : String) : List Nat :=
  (s.toList.map utf8EncodeChar).flatten

/-- Is `b` a UTF-8 continuation byte (`0x80..0xC0`)? -/
def isUtf8Cont (b : Nat) : Bool :=
  0x80 ≤ b && b < 0xC0

/-- UTF-8 decoding of a byte list; `none` on invalid UTF-8.  Models
`std::str::from_utf8` (strict: rejects stray continuation bytes, overlong
forms, surrogates and out-of-range code points). -/
def utf8Decode : List Nat → Option (List Char)
  | [] => some []
  | b :: rest =>
    if b < 0x80 then
      (utf8Decode rest).map (fun cs => Char.ofNat b :: cs)
    else if b < 0xC2 then
      none
    else if b < 0xE0 then
      match rest with
      | c1 :: rest1 =>
        if isUtf8Cont c1 then
          (utf8Decode rest1).map (fun cs => Char.ofNat ((b - 0xC0) * 64 + (c1 - 0x80)) :: cs)
        else none
      | [] => none
    else if b < 0xF0 then
      match rest with
      | c1 :: c2 :: rest2 =>
        if isUtf8Cont c1 && isUtf8Cont c2 then
          let n := (b - 0xE0) * 4096 + (c1 - 0x80) * 64 + (c2 - 0x80)
          if 0x800 ≤ n && ¬(0xD800 ≤ n && n < 0xE000) then
            (utf8Decode rest2).map (fun cs => Char.ofNat n :: cs)
          else none
        else none
      | _ => none
    else if b < 0xF5 then
      match rest with
      | c1 :: c2 :: c3 :: rest3 =>
        if isUtf8Cont c1 && isUtf8Cont c2 && isUtf8Cont c3 then
          let n := (b - 0xF0) * 0x40000 + (c1 - 0x80) * 4096 + (c2 - 0x80) * 64 + (c3 - 0x80)
          if 0x10000 ≤ n && n < 0x110000 then
            (utf8Decode rest3).map (fun cs => Char.ofNat n :: cs)
          else none
        else none
      | _ => none
    else none
termination_by bs => bs.length
decreasing_by all_goals (simp [List.length_cons]); all_goals omega

/-! ## Tuple codec (`src/storage/tuple.rs`) -/

/-- Big-endian byte list of `v mod 2^(8*len)`, `len` bytes long.  This is
what taking the last `len` bytes of Rust's `i128::to_be_bytes` yields. -/
def natToBeBytes : Nat → Nat → List Nat
  | 0, _ => []
  | n + 1, v => natToBeBytes n (v / 256) ++ [v % 256]

/-- Little-endian byte list of `v mod 2^(8*len)`, `len` bytes long: Rust's
`u32::to_le_bytes` for `len = 4`. -/
def natToLeBytes : Nat → Nat → List Nat
  | 0, _ => []
  | n + 1, v => v % 256 :: natToLeBytes n (v / 256)

/-- Value of a big-endian byte list. -/
def beBytesToNat (bs : List Nat) : Nat :=
  bs.foldl (fun acc b => acc * 256 + b) 0

/-- Value of a little-endian byte list. -/
def leBytesToNat (bs : List Nat) : Nat :=
  bs.foldr (fun b acc => acc * 256 + b) 0

/-- `byte_length_of_integer_type` from `tuple.rs`; the `unreachable!` arm
for non-integer types is `none`. -/
def byte_length_of_integer_type : DataType → Option Nat
  | .int | .unsignedInt => some 4
  | .bigInt | .unsignedBigInt => some 8
  | _ => none

/-- The `bounds` match inside `tuple.rs::serialize`: inclusive range of each
integer data type; the `unreachable!` arm is `none`. -/
def integer_bounds : DataType → Option (Int × Int)
  | .int => some (-(2 ^ 31), 2 ^ 31 - 1)
  | .unsignedInt => some (0, 2 ^ 32 - 1)
  | .bigInt => some (-(2 ^ 63), 2 ^ 63 - 1)
  | .unsignedBigInt => some (0, 2 ^ 64 - 1)
  | _ => none

/-- Encoding of one column value, i.e. one iteration of the loop in
`tuple.rs::serialize`.  `none` models the panicking paths: the `todo!` for
strings longer than `u32::MAX` bytes, the failed `assert!` for an
out-of-range integer, and the `unreachable!` for a type/value mismatch. -/
def serializeValue (dt : DataType) (val : Value) : Option (List Nat) :=
  match dt, val with
  | .varchar _, .string s =>
    if (stringBytes s).length > 4294967295 then none
    else some (natToLeBytes 4 (stringBytes s).length ++ stringBytes s)
  | .bool, .bool b => some [if b then 1 else 0]
  | integer_type, .number num => do
    let (lo, hi) ← integer_bounds integer_type
    if lo ≤ num ∧ num ≤ hi then
      let byte_length ← byte_length_of_integer_type integer_type
      some (natToBeBytes byte_length ((num % (2 ^ (8 * byte_length))).toNat))
    else none
  | _, _ => none

/-- The `for (col, val) in schema.columns.iter().zip(values)` loop of
`tuple.rs::serialize`: append each column's encoding to the buffer. -/
def serializeLoop : List (Column × Value) → Option (List Nat)
  | [] => some []
  | (col, val) :: rest => do
    let bytes ← serializeValue col.data_type val
    let more ← serializeLoop rest
    some (bytes ++ more)

/-- `tuple.rs::serialize`: concatenate the column encodings in schema order.
The `debug_assert_eq!` on lengths is development-only; like the release
build, the model just zips the two lists. -/
def serialize (schema : Schema) (values : List Value) : Option (List Nat) :=
  serializeLoop (schema.columns.zip values)

/-- The closure inside `tuple.rs::size_of`: encoded size of the column at
index `i` of the enumerated schema.  `tuple[i]` is only read in the
`Varchar` arm, exactly as in the source; `none` models the panic for a
non-string value in a varchar column (and the `unreachable!` inside
`byte_length_of_integer_type`). -/
def column_size (tuple : List Value) (i : Nat) (col : Column) : Option Nat :=
  match col.data_type with
  | .bool => some 1
  | .varchar _ =>
    match tuple.get? i with
    | some (.string s) => some (4 + (stringBytes s).length)
    | _ => none
  | integer_type => byte_length_of_integer_type integer_type

/-- `tuple.rs::size_of`, written with the running column index `i` made
explicit (the Rust uses `iter().enumerate()` and sums the sizes). -/
def size_of_from (tuple : List Value) (i : Nat) : List Column → Option Nat
  | [] => some 0
  | col :: cols => do
    let sz ← column_size tuple i col
    let rest ← size_of_from tuple (i + 1) cols
    some (sz + rest)

/-- `tuple.rs::size_of`. -/
def size_of (tuple : List Value) (schema : Schema) : Option Nat :=
  size_of_from tuple 0 schema.columns

/-- Split off the first `n` bytes of `buf`; `none` when `buf` is too short
(the Rust slice expression `buf[c..c + n]` panics in that case). -/
def readN (n : Nat) (buf : List Nat) : Option (List Nat × List Nat) :=
  if buf.length < n then none else some (buf.take n, buf.drop n)

/-- One pass of the loop in `tuple.rs::deserialize` over the remaining
columns, threading the not-yet-consumed part of the buffer (the Rust keeps
a `cursor` index instead).  Note that the integer case zero-extends the
big-endian bytes into the 16-byte buffer (`[0; size_of::<i128>()]`), so the
decoded number is always the unsigned value of the bytes. -/
def deserializeCols : List Column → List Nat → Option (List Value)
  | [], _ => some []
  | col :: cols, buf =>
    match col.data_type with
    | .varchar _ => do
      let (lenBytes, rest) ← readN 4 buf
      let length := leBytesToNat lenBytes
      let (strBytes, rest') ← readN length rest
      let chars ← utf8Decode strBytes
      let vs ← deserializeCols cols rest'
      some (Value.string ⟨chars⟩ :: vs)
    | .bool => do
      match buf with
      | b :: rest => do
        let vs ← deserializeCols cols rest
        some (Value.bool (b != 0) :: vs)
      | [] => none
    | integer_type => do
      let byte_length ← byte_length_of_integer_type integer_type
      let (bytes, rest) ← readN byte_length buf
      let vs ← deserializeCols cols rest
      some (Value.number (Int.ofNat (beBytesToNat bytes)) :: vs)

/-- `tuple.rs::deserialize`. -/
def deserialize (buf : List Nat) (schema : Schema) : Option (List Value) :=
  deserializeCols schema.columns buf

/-- One value conforms to a column data type: the value's variant matches
the type, integers are within the type's range, and a string's UTF-8 byte
length fits the codec's 32-bit length prefix. -/
def valueConforms (dt : DataType) (v : Value) : Bool :=
  match dt, v with
  | .bool, .bool _ => true
  | .varchar _, .string s => (stringBytes s).length ≤ 4294967295
  | integer_type, .number num =>
    match integer_bounds integer_type with
    | some (lo, hi) => lo ≤ num && num ≤ hi
    | none => false
  | _, _ => false

/-- A tuple conforms to a schema: same length and each value conforms to
its column's data type. -/
def tupleConforms (schema : Schema) (tuple : List Value) : Bool :=
  schema.columns.length == tuple.length &&
    (schema.columns.zip tuple).all fun (col, v) => valueConforms col.data_type v

/-! ## Analyzer (`src/sql/analyzer.rs`) -/

/-- `ROW_ID_COL` from the `db` module: the reserved internal column name. -/
def ROW_ID_COL : String := "row_id"

/-- `MKDB_META` from the `db` module: the reserved catalog table name. -/
def MKDB_META : String := "mkdb_meta"

/-- `VmDataType` (declared in the `vm` module).  Modelled from the spec:
the three semantic types an expression can evaluate to (`Bool`, `Number`,
`String`), as used throughout `analyzer.rs`. -/
inductive VmDataType where
  | bool
  | number
  | string
deriving DecidableEq, Repr

/-- `VmDataType::from(DataType)` (declared in the `vm` module).  Modelled
from the spec: the column's semantic type; it agrees with the
`Expression::Identifier` arm of `analyze_expression` in the excerpt
(`Bool -> Bool`, `Varchar -> String`, all integer types `-> Number`). -/
def vmTypeOf : DataType → VmDataType
  | .bool => .bool
  | .varchar _ => .string
  | _ => .number

/-- `TypeError` from the `vm` module, with the two variants the excerpt
constructs. -/
inductive TypeError where
  | expectedType (expected : VmDataType) (found : Expression)
  | cannotApplyBinary (left : Expression) (operator : BinaryOperator) (right : Expression)
deriving DecidableEq, Repr

/-- `AnalyzerError` from `analyzer.rs` (the variants relevant to the
analyzed statements; `AlreadyExists` is irrelevant here and carries the
offending name directly). -/
inductive AnalyzerError where
  | columnValueCountMismatch
  | missingColumns
  | duplicatedColumn (col : String)
  | multiplePrimaryKeys
  | alreadyExists (name : String)
  | valueTooLong (s : String) (max : Nat)
  | integerOutOfRange (n : Int) (dt : DataType)
  | rowIdAssignment
  | mkdbMetaModification
deriving DecidableEq, Repr

/-- `SqlError` from the `db` module, with the variants the analyzer
produces. -/
inductive SqlError where
  | invalidTable (name : String)
  | invalidColumn (name : String)
  | typeError (e : TypeError)
  | analyzerError (e : AnalyzerError)
  | other (message : String)
deriving DecidableEq, Repr

/-- `tuple::integer_is_within_range` (referenced by `analyzer.rs` but not
part of the excerpt's `tuple.rs`).  Modelled from the spec: each integer
data type's inclusive range (spec data model: `Int` signed 32-bit,
`UnsignedInt` 32-bit, `BigInt` signed 64-bit, `UnsignedBigInt` 64-bit);
the ranges coincide with the `bounds` table `tuple.rs::serialize` checks
before encoding. -/
def integer_is_within_range (n : Int) (data_type : DataType) : Bool :=
  match integer_bounds data_type with
  | some (lo, hi) => lo ≤ n && n ≤ hi
  | none => false

/-- `analyzer.rs::analyze_integer_range`. -/
def analyze_integer_range (integer : Int) (data_type : DataType) : Except AnalyzerError Unit :=
  match data_type with
  | .bigInt | .int | .unsignedBigInt | .unsignedInt =>
    if ¬integer_is_within_range integer data_type then
      .error (.integerOutOfRange integer data_type)
    else .ok ()
  | _ => .ok ()

/-- `analyzer.rs::analyze_expression`: predetermines the type an expression
will evaluate to.  In the `Identifier` arm the Rust looks up the index with
`index_of` and then indexes `schema.columns`; the model fuses the two into
`Schema.column_of` (the index returned by `index_of` is always in
bounds). -/
def analyze_expression (schema : Schema) (col_data_type : Option DataType) :
    Expression → Except SqlError VmDataType
  | .value v =>
    match v with
    | .bool _ => .ok .bool
    | .string _ => .ok .string
    | .number num =>
      match col_data_type with
      | some data_type =>
        match analyze_integer_range num data_type with
        | .error e => .error (.analyzerError e)
        | .ok _ => .ok .number
      | none => .ok .number
  | .identifier ident =>
    match schema.column_of ident with
    | none => .error (.invalidColumn ident)
    | some col => .ok (vmTypeOf col.data_type)
  | .unaryOperation operator expr =>
    match col_data_type, operator, expr with
    | some data_type, .minus, .value (.number num) =>
      -- Precompute negative numbers since the optimizer hasn't run yet.
      match analyze_integer_range (-num) data_type with
      | .error e => .error (.analyzerError e)
      | .ok _ => .ok .number
    | _, _, _ => do
      match ← analyze_expression schema col_data_type expr with
      | .number => .ok .number
      | _ => .error (.typeError (.expectedType .number expr))
  | .binaryOperation left operator right => do
    let left_data_type ← analyze_expression schema col_data_type left
    let right_data_type ← analyze_expression schema col_data_type right
    if left_data_type ≠ right_data_type then
      .error (.typeError (.cannotApplyBinary left operator right))
    else
      match operator with
      | .eq | .neq | .lt | .ltEq | .gt | .gtEq => .ok .bool
      | .and | .or =>
        if left_data_type = .bool then .ok .bool
        else .error (.typeError (.cannotApplyBinary left operator right))
      | .plus | .minus | .div | .mul =>
        if left_data_type = .number then .ok .number
        else .error (.typeError (.cannotApplyBinary left operator right))
  | .nested expr => analyze_expression schema col_data_type expr
  | .wildcard => .error (.other "unexpected wildcard expression (*)")

/-- `analyzer.rs::analyze_assignment`: the RHS of a `SET`/`INSERT` value
must evaluate to the column's semantic type; strings additionally respect
the `VARCHAR(max)` character limit, counted with `chars().count()`, i.e.
in Unicode scalar values (`String.length` here). -/
def analyze_assignment (table_schema : Schema) (column : String) (value : Expression)
    (allow_identifiers : Bool) : Except SqlError Unit :=
  if column == ROW_ID_COL then .error (.analyzerError .rowIdAssignment)
  else
    match table_schema.column_of column with
    | none => .error (.invalidColumn column)
    | some col => do
      let data_type := col.data_type
      let expected_data_type := vmTypeOf data_type
      let pre_eval_data_type ←
        if allow_identifiers then analyze_expression table_schema (some data_type) value
        else analyze_expression Schema.empty (some data_type) value
      if expected_data_type ≠ pre_eval_data_type then
        .error (.typeError (.expectedType expected_data_type value))
      else
        match data_type, value with
        | .varchar max, .value (.string s) =>
          if s.length > max then .error (.analyzerError (.valueTooLong s max))
          else .ok ()
        | _, _ => .ok ()

/-! ## Block-aligned I/O (`src/paging/io.rs`)

`BlockIo` wraps a seekable byte sink.  The tests (and the round-trip claim)
exercise it over `MemBuf = io::Cursor<Vec<u8>>`, modelled here as a byte
list plus a position. -/

/-- `MemBuf` (`io::Cursor<Vec<u8>>`): in-memory byte buffer plus cursor
position. -/
structure MemBuf where
  data : List Nat
  pos : Nat
deriving DecidableEq, Repr

/-- `Seek::seek(SeekFrom::Start(offset))` on a cursor. -/
def MemBuf.seekStart (m : MemBuf) (offset : Nat) : MemBuf :=
  { m with pos := offset }

/-- `Read::read` on a `Cursor<Vec<u8>>` into a buffer of length `len`:
copies `min len (remaining)` bytes starting at `pos`, advances `pos`, and
returns the bytes actually read (the read count is their length). -/
def MemBuf.read (m : MemBuf) (len : Nat) : MemBuf × List Nat :=
  let k := min len (m.data.length - m.pos)
  ({ m with pos := m.pos + k }, (m.data.drop m.pos).take k)

/-- `Write::write` on a `Cursor<Vec<u8>>`: pads the vector with zeroes up
to `pos` if it is shorter, then overwrites (and extends) starting at `pos`;
returns the byte count written, which is all of `buf`. -/
def MemBuf.write (m : MemBuf) (buf : List Nat) : MemBuf × Nat :=
  let padded := m.data ++ List.replicate (m.pos - m.data.length) 0
  ({ data := padded.take m.pos ++ buf ++ padded.drop (m.pos + buf.length),
     pos := m.pos + buf.length },
    buf.length)

/-- Bitwise NOT on a 64-bit `usize` value. -/
def usizeNot (x : Nat) : Nat := 2 ^ 64 - 1 - x

/-- `BlockIo::read` from `io.rs`, returning the final cursor, the returned
read count and the contents of the caller's buffer after the call.  The
`page_size >= block_size` case seeks to `page_size * page_number` and reads
straight into the caller's buffer (whose tail beyond the read count is left
untouched).  Otherwise the page offset is aligned down to the block size
with the bitmask `!(block_size - 1)`, the whole block is read into a
zeroed `vec![0; capacity]`, and the page's slice of it is copied into the
caller's buffer; `none` models the `copy_from_slice` panic when the slice
bounds do not match. -/
def BlockIo.read (page_size block_size : Nat) (m : MemBuf) (page_number : Nat)
    (buf : List Nat) : Option (MemBuf × Nat × List Nat) :=
  let (capacity, block_offset, inner_offset) :=
    if page_size ≥ block_size then
      (page_size, page_size * page_number, 0)
    else
      let offset := (page_number * page_size) &&& usizeNot (block_size - 1)
      (block_size, offset, page_number * page_size - offset)
  let m1 := m.seekStart block_offset
  if page_size ≥ block_size then
    let (m2, bytes) := m1.read buf.length
    some (m2, bytes.length, bytes ++ buf.drop bytes.length)
  else
    let (m2, bytes) := m1.read capacity
    let block := bytes ++ List.replicate (capacity - bytes.length) 0
    if inner_offset + page_size ≤ block.length ∧ buf.length = page_size then
      some (m2, page_size, (block.drop inner_offset).take page_size)
    else none

/-- `BlockIo::write` from `io.rs`: seek to `page_size * page_number` and
write the buffer there (no block alignment on the write path). -/
def BlockIo.write (page_size : Nat) (m : MemBuf) (page_number : Nat)
    (buf : List Nat) : MemBuf × Nat :=
  let offset := page_size * page_number
  (m.seekStart offset).write buf

/-! ## Tokenizer (`src/sql/tokenizer.rs`)

The character stream is a `Peekable<Chars>` plus the running location; the
original input string is kept for error reports. -/

/-- `Location` from `tokenizer.rs`: line and column, both starting at 1. -/
structure Location where
  line : Nat
  col : Nat
deriving DecidableEq, Repr

/-- `Whitespace` from the `token` module (its three variants are fixed by
the `next_token` arms in the excerpt). -/
inductive Whitespace where
  | space
  | tab
  | newline
deriving DecidableEq, Repr

/-- `Keyword` from the `token` module: exactly the names matched in
`tokenize_keyword_or_identifier`, plus the `None` fallback.  `from`,
`where` and `by` are Lean keywords, hence the `Kw` suffix on those three
constructors. -/
inductive Keyword where
  | select | create | update | delete | insert | values | into | set | drop
  | fromKw | whereKw | and | or | primary | key | unique | table | database
  | int | bigInt | unsigned | varchar | bool | true | false | order | byKw
  | index | on | start | transaction | rollback | commit | explain
  | none
deriving DecidableEq, Repr

/-- `Token` from the `token` module: every variant `tokenizer.rs`
constructs. -/
inductive Token where
  | whitespace (w : Whitespace)
  | identifier (s : String)
  | keyword (k : Keyword)
  | string (s : String)
  | number (s : String)
  | eq | neq | lt | ltEq | gt | gtEq | plus | minus | mul | div
  | leftParen | rightParen | comma | semiColon
  | eof
deriving DecidableEq, Repr

/-- `ErrorKind` from `tokenizer.rs`. -/
inductive ErrorKind where
  | unexpectedOrUnsupportedToken (c : Char)
  | unexpectedWhileParsingOperator (unexpected : Char) (operator : Token)
  | operatorNotClosed (operator : Token)
  | stringNotClosed
  | other (message : String)
deriving DecidableEq, Repr

/-- `TokenizerError` from `tokenizer.rs`: kind, location, full input. -/
structure TokenizerError where
  kind : ErrorKind
  location : Location
  input : String
deriving DecidableEq, Repr

/-- `Stream` from `tokenizer.rs`: the original input, the current location
and the remaining characters. -/
structure Stream where
  input : String
  location : Location
  chars : List Char
deriving DecidableEq, Repr

/-- The location update performed by `Stream::next`: a line feed starts a
new line, anything else advances the column. -/
def advanceLoc (c : Char) (loc : Location) : Location :=
  if c = '\n' then ⟨loc.line + 1, 1⟩ else ⟨loc.line, loc.col + 1⟩

/-- `Stream::next`: consume one character, updating the location. -/
def Stream.next (s : Stream) : Option Char × Stream :=
  match s.chars with
  | [] => (none, s)
  | c :: rest => (some c, { s with chars := rest, location := advanceLoc c s.location })

/-- `Stream::peek`. -/
def Stream.peek (s : Stream) : Option Char :=
  s.chars.head?

/-- The `TakeWhile` iterator from `tokenizer.rs`, run to exhaustion over
raw characters: returns the collected prefix, the remaining characters and
the final location.  Characters failing the predicate are not consumed. -/
def takeWhileChars (p : Char → Bool) : List Char → Location → List Char × List Char × Location
  | [], loc => ([], [], loc)
  | c :: rest, loc =>
    if p c then
      let (taken, remaining, loc') := takeWhileChars p rest (advanceLoc c loc)
      (c :: taken, remaining, loc')
    else ([], c :: rest, loc)

/-- `Stream::take_while`, collected into a list. -/
def Stream.takeWhile (s : Stream) (p : Char → Bool) : List Char × Stream :=
  let (taken, remaining, loc) := takeWhileChars p s.chars s.location
  (taken, { s with chars := remaining, location := loc })

/-- `Token::is_part_of_ident_or_keyword` (declared in the `token` module).
Modelled from the spec: identifiers are made of letters, digits and
underscores (`is_admin`, `row_id`, … in the repository's tests). -/
def Token.is_part_of_ident_or_keyword (c : Char) : Bool :=
  c.isAlphanum || c = '_'

/-- The keyword table of `tokenize_keyword_or_identifier`, applied to the
upper-cased spelling (`to_uppercase`, of which the ASCII part is what the
keyword table can observe). -/
def keyword_of (value : String) : Keyword :=
  match String.mk (value.toList.map Char.toUpper) with
  | "SELECT" => .select
  | "CREATE" => .create
  | "UPDATE" => .update
  | "DELETE" => .delete
  | "INSERT" => .insert
  | "VALUES" => .values
  | "INTO" => .into
  | "SET" => .set
  | "DROP" => .drop
  | "FROM" => .fromKw
  | "WHERE" => .whereKw
  | "AND" => .and
  | "OR" => .or
  | "PRIMARY" => .primary
  | "KEY" => .key
  | "UNIQUE" => .unique
  | "TABLE" => .table
  | "DATABASE" => .database
  | "INT" => .int
  | "BIGINT" => .bigInt
  | "UNSIGNED" => .unsigned
  | "VARCHAR" => .varchar
  | "BOOL" => .bool
  | "TRUE" => .true
  | "FALSE" => .false
  | "ORDER" => .order
  | "BY" => .byKw
  | "INDEX" => .index
  | "ON" => .on
  | "START" => .start
  | "TRANSACTION" => .transaction
  | "ROLLBACK" => .rollback
  | "COMMIT" => .commit
  | "EXPLAIN" => .explain
  | _ => .none

/-- `Tokenizer::consume`: eat one character and return the given token. -/
def consumeTok (s : Stream) (t : Token) : (Except TokenizerError Token) × Stream :=
  (.ok t, (s.next).2)

/-- `Tokenizer::error`: build an error at the stream's current location. -/
def mkTokError (s : Stream) (kind : ErrorKind) : Except TokenizerError Token :=
  .error ⟨kind, s.location, s.input⟩

/-- `Tokenizer::tokenize_string`: quoted string literal (the `unwrap` on
the opening quote cannot fail, `next_token` peeked it; the impossible
branch is an `other` error). -/
def tokenize_string (s : Stream) : (Except TokenizerError Token) × Stream :=
  match s.next with
  | (some quote, s1) =>
    let (string, s2) := s1.takeWhile (fun c => c ≠ quote)
    match s2.next with
    | (nc, s3) =>
      if nc = some quote then (.ok (.string (String.mk string)), s3)
      else (mkTokError s3 .stringNotClosed, s3)
  | (none, s1) => (mkTokError s1 (.other "tokenize_string called on empty stream"), s1)

/-- `Tokenizer::tokenize_number`: a run of ASCII digits. -/
def tokenize_number (s : Stream) : (Except TokenizerError Token) × Stream :=
  let (digits, s') := s.takeWhile (fun c => c.isDigit)
  (.ok (.number (String.mk digits)), s')

/-- The final `match keyword` of `tokenize_keyword_or_identifier`: the
`None` sentinel means the word is a plain identifier. -/
def tokenOfWord (value : String) : Token :=
  match keyword_of value with
  | .none => .identifier value
  | k => .keyword k

/-- `Tokenizer::tokenize_keyword_or_identifier`. -/
def tokenize_keyword_or_identifier (s : Stream) : (Except TokenizerError Token) × Stream :=
  let (chars, s') := s.takeWhile Token.is_part_of_ident_or_keyword
  (.ok (tokenOfWord (String.mk chars)), s')

/-- `Tokenizer::next_token`: dispatch on the peeked character, with the
match arms in the source's order.  Rust's `'0'..='9'` range pattern and the
guarded identifier arm become the trailing conditionals of the catch-all
arm (no earlier arm matches a digit, so the order of checks is
preserved).  An empty stream yields `Eof`; the `reached_eof` flag lives in
the tokenize loop below. -/
def next_token (s : Stream) : (Except TokenizerError Token) × Stream :=
  match s.peek with
  | none => (.ok .eof, s)
  | some ' ' => consumeTok s (.whitespace .space)
  | some '\t' => consumeTok s (.whitespace .tab)
  | some '\n' => consumeTok s (.whitespace .newline)
  | some '\r' =>
    let s1 := (s.next).2
    match s1.peek with
    | some '\n' => consumeTok s1 (.whitespace .newline)
    | _ => (.ok (.whitespace .newline), s1)
  | some '<' =>
    let s1 := (s.next).2
    match s1.peek with
    | some '=' => consumeTok s1 .ltEq
    | _ => (.ok .lt, s1)
  | some '>' =>
    let s1 := (s.next).2
    match s1.peek with
    | some '=' => consumeTok s1 .gtEq
    | _ => (.ok .gt, s1)
  | some '*' => consumeTok s .mul
  | some '/' => consumeTok s .div
  | some '+' => consumeTok s .plus
  | some '-' => consumeTok s .minus
  | some '=' => consumeTok s .eq
  | some '!' =>
    let s1 := (s.next).2
    match s1.peek with
    | some '=' => consumeTok s1 .neq
    | some unexpected => (mkTokError s1 (.unexpectedWhileParsingOperator unexpected .neq), s1)
    | none => (mkTokError s1 (.operatorNotClosed .neq), s1)
  | some '(' => consumeTok s .leftParen
  | some ')' => consumeTok s .rightParen
  | some ',' => consumeTok s .comma
  | some ';' => consumeTok s .semiColon
  | some '"' => tokenize_string s
  | some '\'' => tokenize_string s
  | some chr =>
    if '0' ≤ chr ∧ chr ≤ '9' then tokenize_number s
    else if Token.is_part_of_ident_or_keyword chr then tokenize_keyword_or_identifier s
    else (mkTokError s (.unexpectedOrUnsupportedToken chr), s)

/-- The `collect` over `Tokenizer`'s iterator.  The iterator stops after
`next_token` has returned `Eof` (the `reached_eof` flag), and `collect`
stops at the first error.  `fuel` bounds the iteration count for
termination; `next_token_consumes` below shows each `Ok` step eats at
least one character, so the `input.length + 1` budget `tokenize` passes is
never exhausted. -/
def tokenizeLoop : Nat → Stream → Except TokenizerError (List Token)
  | 0, _ => .ok []
  | fuel + 1, s =>
    match s.chars with
    | [] => .ok [.eof]
    | _ :: _ =>
      match next_token s with
      | (.error e, _) => .error e
      | (.ok t, s') =>
        match tokenizeLoop fuel s' with
        | .error e => .error e
        | .ok ts => .ok (t :: ts)

/-- `Tokenizer::tokenize` on an input string. -/
def tokenize (input : String) : Except TokenizerError (List Token) :=
  tokenizeLoop (input.toList.length + 1) ⟨input, ⟨1, 1⟩, input.toList⟩

/-! ## Plan trees and the planner (`src/query/planner.rs`)

`Plan` is declared in the `vm::plan` module; the excerpt's planner and its
tests pin down each variant's shape.  Runtime-resource fields (the shared
`pager` handle, B-Tree `cursor`s, `work_dir` paths and the `comparator`
objects) are omitted: they are process resources the structural claims
never inspect; tables and indexes are identified by name. -/

/-- `Relation` from the `db` module: a base table or an index. -/
inductive Relation where
  | table (name : String)
  | index (name : String)
deriving DecidableEq, Repr

/-- One side of a `std::ops::Bound<Vec<u8>>` range bound over serialized
keys. -/
inductive RangeBound where
  | unbounded
  | included (key : List Nat)
  | excluded (key : List Nat)
deriving DecidableEq, Repr

/-- `TuplesComparator` from `vm::plan`: the schemas and the precomputed
sort key indexes. -/
structure TuplesComparator where
  schema : Schema
  sort_schema : Schema
  sort_keys_indexes : List Nat
deriving DecidableEq, Repr

/-- `Plan` from `vm::plan`, with the payload fields the planner and its
tests populate. -/
inductive Plan where
  | seqScan (table : String)
  | exactMatch (relation : Relation) (key : List Nat) (expr : Expression)
      (emit_table_key_only : Bool) (done : Bool)
  | rangeScan (relation : Relation) (lower upper : RangeBound) (expr : Expression)
      (emit_table_key_only : Bool)
  | logicalOrScan (scans : List Plan)
  | keyScan (table : String) (source : Plan)
  | filter (predicate : Expression) (schema : Schema) (source : Plan)
  | project (input_schema : Schema) (output_schema : Schema)
      (projection : List Expression) (source : Plan)
  | sortKeysGen (gen_exprs : List Expression) (schema : Schema) (source : Plan)
  | collect (source : Plan) (schema : Schema) (mem_buf_size : Nat)
  | sort (collection : Plan) (comparator : TuplesComparator) (page_size : Nat)
      (input_buffers : Nat)
  | valuesPlan (rows : List (List Expression))
  | insert (source : Plan)
  | update (source : Plan) (assignments : List Assignment)
  | delete (source : Plan)

/-- `DEFAULT_SORT_INPUT_BUFFERS` from `vm::plan`.  Modelled from the spec:
the constant's exact value is not part of the excerpt; only the fact that
the planner passes this constant matters to the claims. -/
def DEFAULT_SORT_INPUT_BUFFERS : Nat := 4

/-- `planner.rs::needs_collection`: `true` when the plan's cursor must be
protected by a `Collect` buffer.  The `unreachable!` arm for non-scan
plans is `none`. -/
def needs_collection : Plan → Option Bool
  | .filter _ _ source => needs_collection source
  | .keyScan _ _ | .exactMatch _ _ _ _ _ => some false
  | .seqScan _ | .rangeScan _ _ _ _ _ | .logicalOrScan _ => some true
  | _ => none

/-- The `Statement::Update` branch of `planner.rs::generate_plan`, with the
scan produced by `optimizer::generate_scan_plan` (whose module is not part
of the excerpt) passed in as `source`.  `none` is the `unreachable!`
inside `needs_collection`. -/
def generate_update_plan (source : Plan) (assignments : List Assignment) (schema : Schema)
    (page_size : Nat) : Option Plan :=
  match needs_collection source with
  | none => none
  | some nc =>
    some (.update (if nc then .collect source schema page_size else source) assignments)

/-- The `Statement::Delete` branch of `planner.rs::generate_plan`, with the
scan passed in as `source`. -/
def generate_delete_plan (source : Plan) (schema : Schema) (page_size : Nat) : Option Plan :=
  match needs_collection source with
  | none => none
  | some nc =>
    some (.delete (if nc then .collect source schema page_size else source))

/-- A planner failure: either a propagated `SqlError`, or a Rust panic
(`unwrap` on a failed schema lookup, impossible after analysis). -/
inductive PlanError where
  | sql (e : SqlError)
  | panic (msg : String)
deriving DecidableEq, Repr

/-- The `Display` implementation for `Value` in `statement.rs`. -/
def Value.toDisplay : Value → String
  | .number n => toString n
  | .string s => "\"" ++ s ++ "\""
  | .bool b => if b then "TRUE" else "FALSE"

/-- The `Display` implementation for `BinaryOperator` in `statement.rs`. -/
def BinaryOperator.toDisplay : BinaryOperator → String
  | .eq => "="
  | .neq => "!="
  | .lt => "<"
  | .ltEq => "<="
  | .gt => ">"
  | .gtEq => ">="
  | .plus => "+"
  | .minus => "-"
  | .mul => "*"
  | .div => "/"
  | .and => "AND"
  | .or => "OR"

/-- The `Display` implementation for `UnaryOperator` in `statement.rs`. -/
def UnaryOperator.toDisplay : UnaryOperator → String
  | .minus => "-"
  | .plus => "+"

/-- The `Display` implementation for `Expression` in `statement.rs`, used
by the planner to name synthesized columns (`format!("{expr}")`). -/
def Expression.toDisplay : Expression → String
  | .identifier ident => ident
  | .value v => v.toDisplay
  | .wildcard => "*"
  | .binaryOperation left op right =>
    left.toDisplay ++ " " ++ op.toDisplay ++ " " ++ right.toDisplay
  | .unaryOperation op expr => op.toDisplay ++ expr.toDisplay
  | .nested expr => "(" ++ expr.toDisplay ++ ")"

/-- `planner.rs::resolve_unknown_type`: concrete data type for a not yet
executed expression (`Bool -> Bool`, `Number -> BigInt`,
`String -> Varchar(65535)`). -/
def resolve_unknown_type (schema : Schema) (expr : Expression) : Except PlanError DataType :=
  match expr with
  | .identifier col =>
    match schema.column_of col with
    | none => .error (.panic "index_of returned None")
    | some c => .ok c.data_type
  | _ =>
    match analyze_expression schema none expr with
    | .error e => .error (.sql e)
    | .ok vm =>
      .ok (match vm with
        | .bool => DataType.bool
        | .number => DataType.bigInt
        | .string => DataType.varchar 65535)

/-- The `for expr in &order_by` loop of the `Select` branch: widen the
sort schema with one synthesized column per non-identifier expression and
precompute every sort key's column index. -/
def buildSortKeys (table_schema : Schema) (sort_schema : Schema) :
    List Expression → Except PlanError (Schema × List Nat)
  | [] => .ok (sort_schema, [])
  | expr :: more =>
    match expr with
    | .identifier col =>
      match table_schema.index_of col with
      | none => .error (.panic "index_of returned None")
      | some index => do
        let (s, idxs) ← buildSortKeys table_schema sort_schema more
        .ok (s, index :: idxs)
    | _ => do
      let index := sort_schema.len
      let data_type ← resolve_unknown_type table_schema expr
      let (s, idxs) ← buildSortKeys table_schema
        ⟨sort_schema.columns ++ [⟨expr.toDisplay, data_type, []⟩]⟩ more
      .ok (s, index :: idxs)

/-- The `for expr in &columns` loop of the `Select` branch: identifiers
copy their table column, anything else synthesizes a column named after
the expression's textual form. -/
def buildOutputSchema (table_schema : Schema) : List Expression → Except PlanError (List Column)
  | [] => .ok []
  | expr :: more =>
    match expr with
    | .identifier ident =>
      match table_schema.column_of ident with
      | none => .error (.panic "index_of returned None")
      | some col => do
        let rest ← buildOutputSchema table_schema more
        .ok (col :: rest)
    | _ => do
      let data_type ← resolve_unknown_type table_schema expr
      let rest ← buildOutputSchema table_schema more
      .ok (⟨expr.toDisplay, data_type, []⟩ :: rest)

/-- The `Statement::Select` branch of `planner.rs::generate_plan`, with
the scan produced by `optimizer::generate_scan_plan` passed in as `scan`.
The sort chain is added unless `order_by` is empty or equals the singleton
of the table's first column; `SortKeysGen` is inserted only when some
order-by expression is not a plain identifier, and the projection is
skipped when the output schema equals the table schema. -/
def generate_select_plan (scan : Plan) (table_schema : Schema) (page_size : Nat)
    (columns : List Expression) (order_by : List Expression) : Except PlanError Plan := do
  let source ←
    if order_by.isEmpty then (.ok scan : Except PlanError Plan)
    else
      match table_schema.columns with
      | [] => .error (.panic "schema has no columns")
      | c0 :: _ =>
        if order_by = [Expression.identifier c0.name] then .ok scan
        else do
          let (sort_schema, sort_keys_indexes) ← buildSortKeys table_schema table_schema
            order_by
          let collect_source :=
            if sort_schema.len > table_schema.len then
              Plan.sortKeysGen
                (order_by.filter fun e =>
                  match e with
                  | .identifier _ => false
                  | _ => true)
                table_schema scan
            else scan
          .ok (Plan.sort (Plan.collect collect_source sort_schema page_size)
            ⟨table_schema, sort_schema, sort_keys_indexes⟩ page_size
            DEFAULT_SORT_INPUT_BUFFERS)
  let output_cols ← buildOutputSchema table_schema columns
  if table_schema = ⟨output_cols⟩ then .ok source
  else .ok (.project table_schema ⟨output_cols⟩ columns source)

/-- The scan a `Filter` chain ultimately reads from (the claim's
"looking through any Filter wrapper"). -/
def underlying_scan : Plan → Plan
  | .filter _ _ source => underlying_scan source
  | p => p

/-- Scans that hold a live B-Tree cursor: `SeqScan`, `RangeScan`,
`LogicalOrScan`. -/
def isCursorScan : Plan → Bool
  | .seqScan _ | .rangeScan _ _ _ _ _ | .logicalOrScan _ => true
  | _ => false

/-- Scans that already buffer (`KeyScan`) or emit at most one tuple
(`ExactMatch`). -/
def isBufferedScan : Plan → Bool
  | .keyScan _ _ | .exactMatch _ _ _ _ _ => true
  | _ => false

/-- `tuple::serialize_key` (referenced by the planner tests but not part
of the excerpt's `tuple.rs`).  Modelled from the spec: key serialization
uses the same codec restricted to the key column's type. -/
def serialize_key (dt : DataType) (v : Value) : List Nat :=
  (serializeValue dt v).getD []

/-! ### The `generate_logical_or_scan_plan` test fixture (claim C3)

`optimizer::generate_scan_plan` itself is outside the excerpt; the
repository's planner test `generate_logical_or_scan_plan`
(`src/query/planner.rs:836-954`) asserts, for a six-disjunct `WHERE`
clause over the primary key `id` and the unique index column `email`, the
exact `LogicalOrScan` the planner produces.  The disjuncts below are in
their textual order in the SQL string; the expected scan queue is the one
the test asserts. -/

/-- Disjunct 1: `id > 5 AND id <= 10`. -/
def or_disjunct_a : Expression :=
  .binaryOperation (.binaryOperation (.identifier "id") .gt (.value (.number 5))) .and
    (.binaryOperation (.identifier "id") .ltEq (.value (.number 10)))

/-- Disjunct 2: `id >= 50 AND id < 60`. -/
def or_disjunct_b : Expression :=
  .binaryOperation (.binaryOperation (.identifier "id") .gtEq (.value (.number 50))) .and
    (.binaryOperation (.identifier "id") .lt (.value (.number 60)))

/-- Disjunct 3: `id = 100`. -/
def or_disjunct_c : Expression :=
  .binaryOperation (.identifier "id") .eq (.value (.number 100))

/-- Disjunct 4: `email < 'b@b.com'`. -/
def or_disjunct_d : Expression :=
  .binaryOperation (.identifier "email") .lt (.value (.string "b@b.com"))

/-- Disjunct 5: `email > 't@t.com'`. -/
def or_disjunct_e : Expression :=
  .binaryOperation (.identifier "email") .gt (.value (.string "t@t.com"))

/-- Disjunct 6: `email = 'f@f.com'`. -/
def or_disjunct_f : Expression :=
  .binaryOperation (.identifier "email") .eq (.value (.string "f@f.com"))

/-- The six disjuncts of the test's `WHERE` clause, in textual order. -/
def or_scan_disjuncts : List Expression :=
  [or_disjunct_a, or_disjunct_b, or_disjunct_c, or_disjunct_d, or_disjunct_e, or_disjunct_f]

/-- The `expected_scans` queue of the planner test
`generate_logical_or_scan_plan`: the children of the produced
`LogicalOrScan`, in queue order. -/
def or_scan_expected_scans : List Plan :=
  [.rangeScan (.table "users") (.excluded (serialize_key .int (.number 5)))
      (.included (serialize_key .int (.number 10))) or_disjunct_a true,
    .rangeScan (.table "users") (.included (serialize_key .int (.number 50)))
      (.excluded (serialize_key .int (.number 60))) or_disjunct_b true,
    .exactMatch (.table "users") (serialize_key .int (.number 100)) or_disjunct_c true false,
    .rangeScan (.index "users_email_uq_index") .unbounded
      (.excluded (serialize_key (.varchar 255) (.string "b@b.com"))) or_disjunct_d true,
    .exactMatch (.index "users_email_uq_index")
      (serialize_key (.varchar 255) (.string "f@f.com")) or_disjunct_f true false,
    .rangeScan (.index "users_email_uq_index")
      (.excluded (serialize_key (.varchar 255) (.string "t@t.com"))) .unbounded
      or_disjunct_e true]

/-- The predicate a leaf scan carries (`expr` field). -/
def Plan.scanExpr : Plan → Option Expression
  | .rangeScan _ _ _ expr _ => some expr
  | .exactMatch _ _ expr _ _ => some expr
  | _ => none

/-- The `emit_table_key_only` flag of a leaf scan. -/
def Plan.emitsTableKeyOnly : Plan → Bool
  | .rangeScan _ _ _ _ emit => emit
  | .exactMatch _ _ _ emit _ => emit
  | _ => false

/-- The relation a leaf scan reads. -/
def Plan.scanRelation : Plan → Option Relation
  | .rangeScan relation _ _ _ _ => some relation
  | .exactMatch relation _ _ _ _ => some relation
  | _ => none

/-! ### Facts about the tuple codec -/

lemma natToBeBytes_length (n : Nat) : ∀ v, (natToBeBytes n v).length = n := by
  induction n with
  | zero => intro v; rfl
  | succ n ih => intro v; simp [natToBeBytes, ih]

lemma natToLeBytes_length (n : Nat) : ∀ v, (natToLeBytes n v).length = n := by
  induction n with
  | zero => intro v; rfl
  | succ n ih => intro v; simp [natToLeBytes, ih]

/-- For a conforming value, one column's encoding succeeds and its byte
length is the one `column_size` reports. -/
lemma serializeValue_length (dt : DataType) (v : Value) (tuple : List Value) (i : Nat)
    (hv : tuple.get? i = some v) (h : valueConforms dt v = true) :
    ∀ name constraints, ∃ bs, serializeValue dt v = some bs ∧
      column_size tuple i ⟨name, dt, constraints⟩ = some bs.length := by
  intro name constraints
  cases dt <;> cases v <;>
    simp_all [valueConforms, serializeValue, column_size, integer_bounds,
      byte_length_of_integer_type, natToBeBytes_length, natToLeBytes_length]

/-- Main induction for claim C6, over the columns still to be encoded;
`i` is the index of the first of them in the full tuple. -/
lemma serialize_size_aux (cols : List Column) :
    ∀ (vals tuple : List Value) (i : Nat),
      tuple.drop i = vals →
      cols.length ≤ vals.length →
      ((cols.zip vals).all fun cv => valueConforms cv.1.data_type cv.2) = true →
      ∃ bytes,
        serializeLoop (cols.zip vals) = some bytes ∧
          size_of_from tuple i cols = some bytes.length := by
  induction cols with
  | nil =>
    intro vals tuple i _ _ _
    exact ⟨[], by simp [serializeLoop], by simp [size_of_from]⟩
  | cons c cs ih =>
    intro vals tuple i hdrop hlen hconf
    cases vals with
    | nil => simp at hlen
    | cons v vs =>
      have hget : tuple.get? i = some v := by
        have hh := congrArg List.head? hdrop
        simpa [List.head?_drop] using hh
      have hdrop' : tuple.drop (i + 1) = vs := by
        have hh := congrArg List.tail hdrop
        simpa [List.tail_drop] using hh
      simp only [List.zip_cons_cons, List.all_cons, Bool.and_eq_true] at hconf
      obtain ⟨bs, hbs, hsz⟩ :=
        serializeValue_length c.data_type v tuple i hget hconf.1 c.name c.constraints
      obtain ⟨bytes, hbytes, hrec⟩ :=
        ih vs tuple (i + 1) hdrop' (by simpa using hlen) hconf.2
      refine ⟨bs ++ bytes, ?_, ?_⟩
      · rw [List.zip_cons_cons]
        simp [serializeLoop, hbs, hbytes]
      · simp [size_of_from, hsz, hrec]

/-- **C6.** For every schema and every conforming tuple, `size_of` reports
exactly the byte length of `serialize`'s output. -/
theorem size_of_eq_serialize_length (schema : Schema) (tuple : List Value)
    (h : tupleConforms schema tuple = true) :
    ∃ bytes, serialize schema tuple = some bytes ∧
      size_of tuple schema = some bytes.length := by
  simp only [tupleConforms, Bool.and_eq_true, beq_iff_eq] at h
  obtain ⟨bytes, hbytes, hsz⟩ :=
    serialize_size_aux schema.columns tuple tuple 0 (by simp) (le_of_eq h.1) h.2
  exact ⟨bytes, hbytes, hsz⟩

/-- Witness for C6 at a concrete schema and tuple. -/
theorem size_of_eq_serialize_length_witness :
    tupleConforms ⟨[⟨"id", DataType.int, [Constraint.primaryKey]⟩,
        ⟨"name", DataType.varchar 255, []⟩]⟩ [Value.number 5, Value.string "ab"] = true ∧
      ∃ bytes,
        serialize ⟨[⟨"id", DataType.int, [Constraint.primaryKey]⟩,
            ⟨"name", DataType.varchar 255, []⟩]⟩ [Value.number 5, Value.string "ab"] =
          some bytes ∧
        size_of [Value.number 5, Value.string "ab"]
            ⟨[⟨"id", DataType.int, [Constraint.primaryKey]⟩,
              ⟨"name", DataType.varchar 255, []⟩]⟩ = some bytes.length :=
  ⟨by decide,
    size_of_eq_serialize_length
      ⟨[⟨"id", DataType.int, [Constraint.primaryKey]⟩, ⟨"name", DataType.varchar 255, []⟩]⟩
      [Value.number 5, Value.string "ab"] (by decide)⟩

/-- **C1.** The codec round-trip fails on the code as written: the tuple
`[-1]` conforms to the single-column `INT` schema and serializes to
`FF FF FF FF`, but `deserialize` zero-extends the big-endian bytes into the
16-byte `i128` buffer instead of sign-extending them, so the decoded value
is `4294967295`, not `-1`. -/
theorem deserialize_serialize_negative_int_fails :
    tupleConforms ⟨[⟨"id", DataType.int, [Constraint.primaryKey]⟩]⟩ [Value.number (-1)] =
        true ∧
      serialize ⟨[⟨"id", DataType.int, [Constraint.primaryKey]⟩]⟩ [Value.number (-1)] =
        some [255, 255, 255, 255] ∧
      deserialize [255, 255, 255, 255] ⟨[⟨"id", DataType.int, [Constraint.primaryKey]⟩]⟩ =
        some [Value.number 4294967295] ∧
      deserialize [255, 255, 255, 255] ⟨[⟨"id", DataType.int, [Constraint.primaryKey]⟩]⟩ ≠
        some [Value.number (-1)] := by
  refine ⟨by decide, by decide, by decide, by decide⟩

/-! ### Analyzer claims -/

/-- **C7.** Assigning a string literal to a `Varchar(max)` column (INSERT
uses `allow_identifiers = false`, UPDATE uses `true`) fails with
`ValueTooLong` exactly when the literal's number of Unicode scalar values
exceeds `max`, and passes otherwise. -/
theorem analyze_assignment_varchar_limit (schema : Schema) (colName : String) (max : Nat)
    (s : String) (allow_identifiers : Bool) (col : Column)
    (hrow : colName ≠ ROW_ID_COL)
    (hcol : schema.column_of colName = some col)
    (hdt : col.data_type = .varchar max) :
    (analyze_assignment schema colName (Expression.value (Value.string s)) allow_identifiers =
        .error (.analyzerError (.valueTooLong s max)) ↔ s.length > max) ∧
      (s.length ≤ max →
        analyze_assignment schema colName (Expression.value (Value.string s))
            allow_identifiers = .ok ()) := by
  have hbeq : (colName == ROW_ID_COL) = false := by
    simpa using hrow
  cases allow_identifiers <;> by_cases hlen : s.length > max <;>
    simp [analyze_assignment, hbeq, hcol, hdt, analyze_expression, vmTypeOf, hlen, bind,
      Except.bind]

/-- Witness for C7: a nine-character literal in a `VARCHAR(8)` column is
rejected. -/
theorem analyze_assignment_varchar_limit_witness :
    ("name" ≠ ROW_ID_COL ∧
        Schema.column_of ⟨[⟨"id", DataType.int, []⟩, ⟨"name", DataType.varchar 8, []⟩]⟩
            "name" = some ⟨"name", DataType.varchar 8, []⟩ ∧
        Column.data_type ⟨"name", DataType.varchar 8, []⟩ = .varchar 8) ∧
      (analyze_assignment ⟨[⟨"id", DataType.int, []⟩, ⟨"name", DataType.varchar 8, []⟩]⟩
            "name" (Expression.value (Value.string "123456789")) false =
          .error (.analyzerError (.valueTooLong "123456789" 8)) ↔
        "123456789".length > 8) :=
  ⟨⟨by decide, by decide, by decide⟩,
    (analyze_assignment_varchar_limit
        ⟨[⟨"id", DataType.int, []⟩, ⟨"name", DataType.varchar 8, []⟩]⟩ "name" 8 "123456789"
        false ⟨"name", DataType.varchar 8, []⟩ (by decide) (by decide) (by decide)).1⟩

/-- **C8.** A unary minus applied directly to an integer literal, analyzed
against an integer-typed column, is range-checked on the negated value:
`IntegerOutOfRange(-n, dt)` exactly when `-n` is out of the type's range,
and type `Number` otherwise. -/
theorem analyze_expression_negated_literal (schema : Schema) (dt : DataType) (n : Int)
    (hdt : dt = .int ∨ dt = .unsignedInt ∨ dt = .bigInt ∨ dt = .unsignedBigInt) :
    analyze_expression schema (some dt)
        (Expression.unaryOperation .minus (Expression.value (Value.number n))) =
      if integer_is_within_range (-n) dt then .ok .number
      else .error (.analyzerError (.integerOutOfRange (-n) dt)) := by
  rcases hdt with h | h | h | h
  · subst h
    cases hc : integer_is_within_range (-n) DataType.int <;>
      simp [analyze_expression, analyze_integer_range, hc]
  · subst h
    cases hc : integer_is_within_range (-n) DataType.unsignedInt <;>
      simp [analyze_expression, analyze_integer_range, hc]
  · subst h
    cases hc : integer_is_within_range (-n) DataType.bigInt <;>
      simp [analyze_expression, analyze_integer_range, hc]
  · subst h
    cases hc : integer_is_within_range (-n) DataType.unsignedBigInt <;>
      simp [analyze_expression, analyze_integer_range, hc]

/-- Witness for C8: `-(2^31 + 1)` does not fit an `INT` column, while
`-5` does. -/
theorem analyze_expression_negated_literal_witness :
    (DataType.int = DataType.int ∨ DataType.int = .unsignedInt ∨ DataType.int = .bigInt ∨
        DataType.int = .unsignedBigInt) ∧
      analyze_expression Schema.empty (some DataType.int)
          (Expression.unaryOperation .minus (Expression.value (Value.number 2147483649))) =
        (if integer_is_within_range (-2147483649) DataType.int then .ok .number
          else .error (.analyzerError (.integerOutOfRange (-2147483649) DataType.int))) ∧
      analyze_expression Schema.empty (some DataType.int)
          (Expression.unaryOperation .minus (Expression.value (Value.number 5))) =
        (if integer_is_within_range (-5) DataType.int then .ok .number
          else .error (.analyzerError (.integerOutOfRange (-5) DataType.int))) :=
  ⟨Or.inl rfl,
    analyze_expression_negated_literal Schema.empty DataType.int 2147483649 (Or.inl rfl),
    analyze_expression_negated_literal Schema.empty DataType.int 5 (Or.inl rfl)⟩

/-! ### Tokenizer claims -/

lemma takeWhileChars_remaining_length (p : Char → Bool) :
    ∀ (cs : List Char) (loc : Location), (takeWhileChars p cs loc).2.1.length ≤ cs.length := by
  intro cs
  induction cs with
  | nil => intro loc; simp [takeWhileChars]
  | cons c rest ih =>
    intro loc
    by_cases hp : p c
    · simp only [takeWhileChars, hp, if_true]
      exact (ih (advanceLoc c loc)).trans (Nat.le_succ _)
    · simp [takeWhileChars, hp]

/-- `tokenize_string` always consumes at least the opening quote. -/
lemma tokenize_string_consumes (input : String) (loc : Location) (c : Char)
    (rest : List Char) :
    ∀ t s', tokenize_string ⟨input, loc, c :: rest⟩ = (.ok t, s') →
      t ≠ .eof ∧ s'.chars.length < (c :: rest).length := by
  intro t s' heq
  simp only [tokenize_string, Stream.next, Stream.takeWhile] at heq
  have hrem := takeWhileChars_remaining_length (fun x => x ≠ c) rest (advanceLoc c loc)
  rcases hR : takeWhileChars (fun x => x ≠ c) rest (advanceLoc c loc) with
    ⟨taken, remaining, loc2⟩
  rw [hR] at heq hrem
  simp only at heq hrem
  cases remaining with
  | nil =>
    simp [Stream.next, mkTokError] at heq
  | cons d R2 =>
    by_cases hd : d = c
    · subst hd
      simp [Stream.next] at heq
      obtain ⟨ht, hs⟩ := heq
      subst ht
      subst hs
      refine ⟨by simp, ?_⟩
      simp only [List.length_cons] at hrem ⊢
      omega
    · simp [Stream.next, hd, mkTokError] at heq

lemma isDigit_of_range (c : Char) (h : '0' ≤ c ∧ c ≤ '9') : c.isDigit = true := by
  obtain ⟨h1, h2⟩ := h
  simp only [Char.isDigit, ge_iff_le, decide_eq_true_eq, Bool.and_eq_true]
  exact ⟨by exact h1, by exact h2⟩

/-- `tokenize_number` consumes at least the digit `next_token` peeked. -/
lemma tokenize_number_consumes (input : String) (loc : Location) (c : Char)
    (rest : List Char) (hp : c.isDigit = true) :
    ∀ t s', tokenize_number ⟨input, loc, c :: rest⟩ = (.ok t, s') →
      t ≠ .eof ∧ s'.chars.length < (c :: rest).length := by
  intro t s' heq
  simp only [tokenize_number, Stream.takeWhile, takeWhileChars, hp, if_true] at heq
  simp at heq
  obtain ⟨ht, hs⟩ := heq
  subst ht
  subst hs
  refine ⟨by simp, ?_⟩
  simp only [List.length_cons]
  exact Nat.lt_succ_of_le (takeWhileChars_remaining_length _ rest _)

lemma tokenOfWord_ne_eof (value : String) : tokenOfWord value ≠ .eof := by
  unfold tokenOfWord
  cases keyword_of value <;> simp

/-- `tokenize_keyword_or_identifier` consumes at least the character
`next_token` peeked. -/
lemma tokenize_keyword_or_identifier_consumes (input : String) (loc : Location) (c : Char)
    (rest : List Char) (hp : Token.is_part_of_ident_or_keyword c = true) :
    ∀ t s', tokenize_keyword_or_identifier ⟨input, loc, c :: rest⟩ = (.ok t, s') →
      t ≠ .eof ∧ s'.chars.length < (c :: rest).length := by
  intro t s' heq
  simp only [tokenize_keyword_or_identifier, Stream.takeWhile, takeWhileChars, hp,
    if_true] at heq
  simp at heq
  obtain ⟨ht, hs⟩ := heq
  subst ht
  subst hs
  refine ⟨tokenOfWord_ne_eof _, ?_⟩
  simp only [List.length_cons]
  exact Nat.lt_succ_of_le (takeWhileChars_remaining_length _ rest _)

/-- On a non-empty stream, a successful `next_token` never yields `Eof`
and always consumes at least one character. -/
lemma next_token_consumes (input : String) (loc : Location) (c : Char) (rest : List Char) :
    ∀ t s', next_token ⟨input, loc, c :: rest⟩ = (.ok t, s') →
      t ≠ .eof ∧ s'.chars.length < (c :: rest).length := by
  intro t s' heq
  unfold next_token at heq
  rw [show (⟨input, loc, c :: rest⟩ : Stream).peek = some c from rfl] at heq
  split at heq
  case h_1 =>
    rename_i hcontra
    exact absurd hcontra (by simp)
  case h_2 =>
    simp [consumeTok, Stream.next] at heq
    obtain ⟨ht, hs⟩ := heq
    subst ht
    subst hs
    exact ⟨by simp, by simp only [List.length_cons]; omega⟩
  case h_3 =>
    simp [consumeTok, Stream.next] at heq
    obtain ⟨ht, hs⟩ := heq
    subst ht
    subst hs
    exact ⟨by simp, by simp only [List.length_cons]; omega⟩
  case h_4 =>
    simp [consumeTok, Stream.next] at heq
    obtain ⟨ht, hs⟩ := heq
    subst ht
    subst hs
    exact ⟨by simp, by simp only [List.length_cons]; omega⟩
  case h_5 =>
    cases rest with
    | nil =>
      simp [Stream.next, Stream.peek, consumeTok] at heq
      obtain ⟨ht, hs⟩ := heq
      subst ht
      subst hs
      exact ⟨by simp, by simp only [List.length_cons]; omega⟩
    | cons d rest2 =>
      simp only [Stream.next, Stream.peek, List.head?_cons] at heq
      split at heq
      all_goals
        (simp [consumeTok, Stream.next] at heq
         obtain ⟨ht, hs⟩ := heq
         subst ht
         subst hs
         exact ⟨by simp, by simp only [List.length_cons]; omega⟩)
  case h_6 =>
    cases rest with
    | nil =>
      simp [Stream.next, Stream.peek, consumeTok] at heq
      obtain ⟨ht, hs⟩ := heq
      subst ht
      subst hs
      exact ⟨by simp, by simp only [List.length_cons]; omega⟩
    | cons d rest2 =>
      simp only [Stream.next, Stream.peek, List.head?_cons] at heq
      split at heq
      all_goals
        (simp [consumeTok, Stream.next] at heq
         obtain ⟨ht, hs⟩ := heq
         subst ht
         subst hs
         exact ⟨by simp, by simp only [List.length_cons]; omega⟩)
  case h_7 =>
    cases rest with
    | nil =>
      simp [Stream.next, Stream.peek, consumeTok] at heq
      obtain ⟨ht, hs⟩ := heq
      subst ht
      subst hs
      exact ⟨by simp, by simp only [List.length_cons]; omega⟩
    | cons d rest2 =>
      simp only [Stream.next, Stream.peek, List.head?_cons] at heq
      split at heq
      all_goals
        (simp [consumeTok, Stream.next] at heq
         obtain ⟨ht, hs⟩ := heq
         subst ht
         subst hs
         exact ⟨by simp, by simp only [List.length_cons]; omega⟩)
  case h_8 =>
    simp [consumeTok, Stream.next] at heq
    obtain ⟨ht, hs⟩ := heq
    subst ht
    subst hs
    exact ⟨by simp, by simp only [List.length_cons]; omega⟩
  case h_9 =>
    simp [consumeTok, Stream.next] at heq
    obtain ⟨ht, hs⟩ := heq
    subst ht
    subst hs
    exact ⟨by simp, by simp only [List.length_cons]; omega⟩
  case h_10 =>
    simp [consumeTok, Stream.next] at heq
    obtain ⟨ht, hs⟩ := heq
    subst ht
    subst hs
    exact ⟨by simp, by simp only [List.length_cons]; omega⟩
  case h_11 =>
    simp [consumeTok, Stream.next] at heq
    obtain ⟨ht, hs⟩ := heq
    subst ht
    subst hs
    exact ⟨by simp, by simp only [List.length_cons]; omega⟩
  case h_12 =>
    simp [consumeTok, Stream.next] at heq
    obtain ⟨ht, hs⟩ := heq
    subst ht
    subst hs
    exact ⟨by simp, by simp only [List.length_cons]; omega⟩
  case h_13 =>
    cases rest with
    | nil =>
      simp [Stream.next, Stream.peek, mkTokError] at heq
    | cons d rest2 =>
      simp only [Stream.next, Stream.peek, List.head?_cons] at heq
      split at heq
      all_goals
        first
          | simp [mkTokError] at heq
          | (simp [consumeTok, Stream.next] at heq
             obtain ⟨ht, hs⟩ := heq
             subst ht
             subst hs
             exact ⟨by simp, by simp only [List.length_cons]; omega⟩)
  case h_14 =>
    simp [consumeTok, Stream.next] at heq
    obtain ⟨ht, hs⟩ := heq
    subst ht
    subst hs
    exact ⟨by simp, by simp only [List.length_cons]; omega⟩
  case h_15 =>
    simp [consumeTok, Stream.next] at heq
    obtain ⟨ht, hs⟩ := heq
    subst ht
    subst hs
    exact ⟨by simp, by simp only [List.length_cons]; omega⟩
  case h_16 =>
    simp [consumeTok, Stream.next] at heq
    obtain ⟨ht, hs⟩ := heq
    subst ht
    subst hs
    exact ⟨by simp, by simp only [List.length_cons]; omega⟩
  case h_17 =>
    simp [consumeTok, Stream.next] at heq
    obtain ⟨ht, hs⟩ := heq
    subst ht
    subst hs
    exact ⟨by simp, by simp only [List.length_cons]; omega⟩
  case h_18 => exact tokenize_string_consumes input loc c rest t s' heq
  case h_19 => exact tokenize_string_consumes input loc c rest t s' heq
  case h_20 =>
    rename_i x chr hchr
    injection hchr with hc
    subst hc
    split_ifs at heq with hd hi
    · exact tokenize_number_consumes input loc c rest (isDigit_of_range c hd) t s' heq
    · exact tokenize_keyword_or_identifier_consumes input loc c rest hi t s' heq
    · simp [mkTokError] at heq

/-- A successful run of the tokenize loop, given enough fuel, ends with
`Eof` and contains no earlier `Eof`. -/
lemma tokenizeLoop_eof :
    ∀ (fuel : Nat) (s : Stream) (ts : List Token), s.chars.length < fuel →
      tokenizeLoop fuel s = .ok ts →
      ∃ ts', ts = ts' ++ [Token.eof] ∧ Token.eof ∉ ts' := by
  intro fuel
  induction fuel with
  | zero => intro s ts h; omega
  | succ fuel ih =>
    rintro ⟨inp, lc, chs⟩ ts hlt heq
    rcases hch : chs with _ | ⟨c, rest⟩
    · subst hch
      simp only [tokenizeLoop] at heq
      refine ⟨[], ?_, by simp⟩
      simp only [Except.ok.injEq] at heq
      simp [← heq]
    · subst hch
      simp only [tokenizeLoop] at heq
      rcases hnt : next_token ⟨inp, lc, c :: rest⟩ with ⟨r, s2⟩
      rw [hnt] at heq
      cases r with
      | error e => simp at heq
      | ok t =>
        obtain ⟨hne, hlen⟩ := next_token_consumes inp lc c rest t s2 hnt
        cases hrec : tokenizeLoop fuel s2 with
        | error e => simp [hrec] at heq
        | ok ts0 =>
          simp only [hrec] at heq
          simp only [Except.ok.injEq] at heq
          obtain ⟨ts', h1, h2⟩ := ih s2 ts0 (by simp only [List.length_cons] at hlen hlt; omega)
            hrec
          refine ⟨t :: ts', by simp [← heq, h1], ?_⟩
          simp only [List.mem_cons, not_or]
          exact ⟨fun hy => hne hy.symm, h2⟩

/-- **C9.** Tokenizing is deterministic — the model is a pure function, so
two runs on the same input are literally the same value, whether a token
list or an error — and every successful run ends with `Eof`, which occurs
exactly once. -/
theorem tokenize_deterministic_and_single_eof (input : String) :
    tokenize input = tokenize input ∧
      ∀ ts, tokenize input = .ok ts →
        ts.getLast? = some Token.eof ∧ ts.count Token.eof = 1 := by
  refine ⟨rfl, ?_⟩
  intro ts h
  obtain ⟨ts', hts, hnot⟩ :=
    tokenizeLoop_eof (input.toList.length + 1) ⟨input, ⟨1, 1⟩, input.toList⟩ ts
      (by simp) h
  subst hts
  constructor
  · simp [List.getLast?_concat]
  · rw [List.count_append]
    rw [List.count_eq_zero.mpr hnot]
    simp

/-- Witness for C9 on the input `"a"`. -/
theorem tokenize_deterministic_and_single_eof_witness :
    tokenize "a" = .ok [Token.identifier "a", Token.eof] ∧
      ([Token.identifier "a", Token.eof].getLast? = some Token.eof ∧
        [Token.identifier "a", Token.eof].count Token.eof = 1) :=
  ⟨rfl,
    (tokenize_deterministic_and_single_eof "a").2 [Token.identifier "a", Token.eof] rfl⟩

/-- **C10.** A carriage return not followed by a line feed (next character
differs, or end of input) becomes one `Newline` whitespace token with only
the `'\r'` consumed; a `"\r\n"` pair collapses into one `Newline` token
consuming both characters. -/
theorem carriage_return_newline (input : String) (loc : Location) (c : Char)
    (rest : List Char) (hc : c ≠ '\n') :
    next_token ⟨input, loc, '\r' :: c :: rest⟩ =
        (.ok (Token.whitespace Whitespace.newline),
          ⟨input, advanceLoc '\r' loc, c :: rest⟩) ∧
      next_token ⟨input, loc, ['\r']⟩ =
        (.ok (Token.whitespace Whitespace.newline), ⟨input, advanceLoc '\r' loc, []⟩) ∧
      next_token ⟨input, loc, '\r' :: '\n' :: rest⟩ =
        (.ok (Token.whitespace Whitespace.newline),
          ⟨input, advanceLoc '\n' (advanceLoc '\r' loc), rest⟩) := by
  refine ⟨?_, by rfl, by rfl⟩
  unfold next_token
  rw [show (⟨input, loc, '\r' :: c :: rest⟩ : Stream).peek = some '\r' from rfl]
  simp only [Stream.next, Stream.peek, List.head?_cons]
  split
  · rename_i hcn
    exact absurd (Option.some.inj hcn) hc
  · rfl

/-- Witness for C10 with `'x'` after the carriage return. -/
theorem carriage_return_newline_witness :
    ('x' ≠ '\n') ∧
      (next_token ⟨"", ⟨1, 1⟩, '\r' :: 'x' :: []⟩ =
          (.ok (Token.whitespace Whitespace.newline),
            ⟨"", advanceLoc '\r' ⟨1, 1⟩, 'x' :: []⟩) ∧
        next_token ⟨"", ⟨1, 1⟩, ['\r']⟩ =
          (.ok (Token.whitespace Whitespace.newline), ⟨"", advanceLoc '\r' ⟨1, 1⟩, []⟩) ∧
        next_token ⟨"", ⟨1, 1⟩, '\r' :: '\n' :: []⟩ =
          (.ok (Token.whitespace Whitespace.newline),
            ⟨"", advanceLoc '\n' (advanceLoc '\r' ⟨1, 1⟩), []⟩)) :=
  ⟨by decide, carriage_return_newline "" ⟨1, 1⟩ 'x' [] (by decide)⟩

/-! ### Block I/O claims -/

/-- The bitmask `!(block_size - 1)` for `block_size = 16` aligns a 64-bit
offset down to a multiple of 16. -/
lemma land_two_pow_sub_sixteen (x : Nat) (hx : x < 2 ^ 64) :
    x &&& (2 ^ 64 - 16) = 16 * (x / 16) := by
  apply Nat.eq_of_testBit_eq
  intro i
  have hmask : (2 : Nat) ^ 64 - 16 = (2 ^ 60 - 1) <<< 4 := by
    rw [Nat.shiftLeft_eq]; norm_num
  have hdiv : 16 * (x / 16) = (x >>> 4) <<< 4 := by
    rw [Nat.shiftRight_eq_div_pow, Nat.shiftLeft_eq]
    norm_num [Nat.mul_comm]
  rw [hmask, hdiv, Nat.testBit_land, Nat.testBit_shiftLeft, Nat.testBit_shiftLeft,
    Nat.testBit_two_pow_sub_one, Nat.testBit_shiftRight]
  by_cases h4 : 4 ≤ i
  · have h44 : 4 + (i - 4) = i := by omega
    rw [h44]
    by_cases h64 : i < 64
    · simp [ge_iff_le, h4, show i - 4 < 60 by omega, Bool.and_comm]
    · have hxb : x.testBit i = false :=
        Nat.testBit_lt_two_pow
          (lt_of_lt_of_le hx (Nat.pow_le_pow_right (by norm_num) (by omega)))
      simp [hxb, show ¬(i - 4 < 60) by omega]
  · simp [ge_iff_le, h4]

/-- After `MemBuf.write` at position `o`, the bytes from offset `o` on are
the freshly written buffer followed by whatever tail survived. -/
lemma memBuf_write_drop (data : List Nat) (o : Nat) (buf : List Nat) :
    ((MemBuf.write ⟨data, o⟩ buf).1).data.drop o =
      buf ++ (data ++ List.replicate (o - data.length) 0).drop (o + buf.length) := by
  have hlen : ((data ++ List.replicate (o - data.length) 0).take o).length = o := by
    simp [List.length_take, List.length_append, List.length_replicate]
    omega
  simp only [MemBuf.write]
  rw [List.append_assoc, List.drop_left' hlen]

/-- Reading `ps` bytes from a cursor positioned where those bytes start. -/
lemma memBuf_read_exact (d1 : List Nat) (o ps : Nat) (buf rest : List Nat)
    (hbuf : buf.length = ps) (hdrop : d1.drop o = buf ++ rest) :
    MemBuf.read ⟨d1, o⟩ ps = (⟨d1, o + ps⟩, buf) := by
  have hlen : d1.length - o = ps + rest.length := by
    have hc := congrArg List.length hdrop
    simpa [List.length_drop, List.length_append, hbuf] using hc
  have hk : min ps (d1.length - o) = ps := by omega
  simp [MemBuf.read, hk, hdrop]
  rw [← hbuf, List.take_left]

/-- Taking a page out of a (possibly zero-padded) block read from `d1`. -/
lemma block_slice (d1 Z : List Nat) (offset inner ps k : Nat)
    (hk : k ≤ d1.length - offset) (hki : inner + ps ≤ k) :
    ((((d1.drop offset).take k) ++ Z).drop inner).take ps =
      (d1.drop (offset + inner)).take ps := by
  have hA : ((d1.drop offset).take k).length = k := by
    simp [List.length_take, List.length_drop]
    omega
  rw [List.drop_append_eq_append_drop, hA, List.drop_take, List.drop_drop,
    List.take_append_eq_append_take, List.take_take]
  have h2 : min ps (k - inner) = ps := by omega
  have h3 : ps - (List.take (k - inner) (d1.drop (offset + inner))).length = 0 := by
    simp [List.length_take, List.length_drop]
    omega
  rw [h2, h3]
  simp

/-- Round trip in the `page_size ≥ block_size` layout. -/
lemma blockIo_roundtrip_ge (page_size block_size : Nat) (m : MemBuf) (page_number : Nat)
    (buf rbuf : List Nat) (hbs : block_size ≤ page_size)
    (hbuf : buf.length = page_size) (hrbuf : rbuf.length = page_size) :
    ∃ m2, BlockIo.read page_size block_size
        ((BlockIo.write page_size m page_number buf).1) page_number rbuf =
      some (m2, page_size, buf) := by
  have hw : (BlockIo.write page_size m page_number buf).1 =
      (MemBuf.write ⟨m.data, page_size * page_number⟩ buf).1 := rfl
  have hdrop := memBuf_write_drop m.data (page_size * page_number) buf
  set d1 := (MemBuf.write ⟨m.data, page_size * page_number⟩ buf).1.data with hd1
  have hread := memBuf_read_exact d1 (page_size * page_number) page_size buf
    ((m.data ++ List.replicate (page_size * page_number - m.data.length) 0).drop
      (page_size * page_number + buf.length)) hbuf (by rw [hdrop, hbuf])
  refine ⟨⟨d1, page_size * page_number + page_size⟩, ?_⟩
  simp only [BlockIo.read, ge_iff_le, hbs, if_true, MemBuf.seekStart]
  rw [hw]
  simp only [hrbuf]
  rw [show ({ (MemBuf.write ⟨m.data, page_size * page_number⟩ buf).1 with
      pos := page_size * page_number } : MemBuf) = ⟨d1, page_size * page_number⟩ from rfl]
  rw [hread]
  simp [hbuf, ← hrbuf, List.drop_length]

/-- Round trip in the `page_size < block_size` layout exercised by the
claim: `page_size = 4`, `block_size = 16`. -/
lemma blockIo_roundtrip_4_16 (m : MemBuf) (page_number : Nat) (hn : page_number < 2 ^ 32)
    (buf rbuf : List Nat) (hbuf : buf.length = 4) (hrbuf : rbuf.length = 4) :
    ∃ m2, BlockIo.read 4 16 ((BlockIo.write 4 m page_number buf).1) page_number rbuf =
      some (m2, 4, buf) := by
  have hx : page_number * 4 < 2 ^ 64 := by
    have := hn
    omega
  have hmaskval : usizeNot (16 - 1) = 2 ^ 64 - 16 := by
    norm_num [usizeNot]
  have halign : (page_number * 4) &&& usizeNot (16 - 1) =
      16 * (page_number * 4 / 16) := by
    rw [hmaskval]
    exact land_two_pow_sub_sixteen _ hx
  set x := page_number * 4 with hxdef
  set offset := 16 * (x / 16) with hoff
  have hinner : x - offset = x % 16 := by omega
  have hinner12 : x % 16 ≤ 12 := by omega
  have hw : (BlockIo.write 4 m page_number buf).1 =
      (MemBuf.write ⟨m.data, 4 * page_number⟩ buf).1 := rfl
  have hdrop := memBuf_write_drop m.data (4 * page_number) buf
  set d1 := (MemBuf.write ⟨m.data, 4 * page_number⟩ buf).1.data with hd1
  have hdrop' : d1.drop x = buf ++
      (m.data ++ List.replicate (4 * page_number - m.data.length) 0).drop
        (4 * page_number + buf.length) := by
    rw [hd1, show x = 4 * page_number by omega]
    exact hdrop
  have hlen : d1.length - x = 4 +
      ((m.data ++ List.replicate (4 * page_number - m.data.length) 0).drop
        (4 * page_number + buf.length)).length := by
    have hc := congrArg List.length hdrop'
    simpa [List.length_drop, List.length_append, hbuf] using hc
  -- length available from the aligned offset
  have hoffx : offset + x % 16 = x := by omega
  have hkmin : x % 16 + 4 ≤ min 16 (d1.length - offset) := by
    have h1 : x ≤ d1.length := by omega
    have h2 : d1.length - offset ≥ x % 16 + 4 := by omega
    omega
  refine ⟨⟨d1, offset + min 16 (d1.length - offset)⟩, ?_⟩
  simp only [BlockIo.read, ge_iff_le, show ¬(16 ≤ 4) by norm_num, if_false,
    MemBuf.seekStart, MemBuf.read, halign]
  rw [hw]
  rw [← hd1, ← hxdef, hinner]
  have hguard : x % 16 + 4 ≤
      (((d1.drop offset).take (min 16 (d1.length - offset))) ++
        List.replicate (16 - ((d1.drop offset).take (min 16 (d1.length - offset))).length)
          0).length := by
    simp [List.length_append, List.length_replicate, List.length_take, List.length_drop]
    omega
  rw [if_pos ⟨hguard, hrbuf⟩]
  have hslice := block_slice d1
    (List.replicate (16 - ((d1.drop offset).take (min 16 (d1.length - offset))).length) 0)
    offset (x % 16) 4 (min 16 (d1.length - offset)) (by omega) hkmin
  rw [hslice, hoffx]
  rw [hdrop', ← hbuf, List.take_left]

/-- **C5.** For each `(page_size, block_size)` pair in the claim and every
`u32` page number, a `BlockIo::write` of a full page followed by a
`BlockIo::read` of the same page returns the read count `page_size` and
exactly the written bytes, in both layouts (including the
`page_size < block_size` one, whose read offset is aligned down with the
`!(block_size - 1)` bitmask). -/
theorem block_io_write_read_roundtrip (page_size block_size : Nat)
    (hmem : (page_size, block_size) ∈ [(4, 4), (4, 16), (16, 4)])
    (m : MemBuf) (page_number : Nat) (hn : page_number < 2 ^ 32)
    (buf rbuf : List Nat) (hbuf : buf.length = page_size)
    (hrbuf : rbuf.length = page_size) :
    ∃ m2, BlockIo.read page_size block_size
        ((BlockIo.write page_size m page_number buf).1) page_number rbuf =
      some (m2, page_size, buf) := by
  simp only [List.mem_cons, List.mem_singleton, Prod.mk.injEq] at hmem
  rcases hmem with ⟨h1, h2⟩ | ⟨h1, h2⟩ | ⟨h1, h2⟩ | hfalse
  · subst h1; subst h2
    exact blockIo_roundtrip_ge 4 4 m page_number buf rbuf (by norm_num) hbuf hrbuf
  · subst h1; subst h2
    exact blockIo_roundtrip_4_16 m page_number hn buf rbuf hbuf hrbuf
  · subst h1; subst h2
    exact blockIo_roundtrip_ge 16 4 m page_number buf rbuf (by norm_num) hbuf hrbuf
  · cases hfalse

/-- Witness for C5 in the aligning layout: page 3 with `page_size = 4`,
`block_size = 16`, over a dirty initial buffer. -/
theorem block_io_write_read_roundtrip_witness :
    (((4 : Nat), (16 : Nat)) ∈ [(4, 4), (4, 16), (16, 4)] ∧ (3 : Nat) < 2 ^ 32 ∧
        ([1, 2, 3, 4] : List Nat).length = 4 ∧ ([9, 9, 9, 9] : List Nat).length = 4) ∧
      ∃ m2, BlockIo.read 4 16 ((BlockIo.write 4 ⟨[7, 7], 1⟩ 3 [1, 2, 3, 4]).1) 3
          [9, 9, 9, 9] = some (m2, 4, [1, 2, 3, 4]) :=
  ⟨⟨by decide, by decide, by decide, by decide⟩,
    block_io_write_read_roundtrip 4 16 (by decide) ⟨[7, 7], 1⟩ 3 (by decide)
      [1, 2, 3, 4] [9, 9, 9, 9] (by decide) (by decide)⟩

/-! ### Planner claims -/

/-- A plan is never equal to a `Collect` wrapper around itself. -/
lemma collect_ne_self (p : Plan) (s : Schema) (n : Nat) : Plan.collect p s n ≠ p := by
  intro h
  have hsz : sizeOf (Plan.collect p s n) = sizeOf p := congrArg sizeOf h
  simp at hsz
  omega

/-- `needs_collection` answers `true` exactly for `Filter` chains over a
cursor scan, `false` exactly over a buffered scan, and panics otherwise. -/
lemma needs_collection_eq (p : Plan) :
    needs_collection p =
      if isCursorScan (underlying_scan p) then some true
      else if isBufferedScan (underlying_scan p) then some false
      else none := by
  induction p using needs_collection.induct <;>
    simp_all [needs_collection, underlying_scan, isCursorScan, isBufferedScan]

/-- **C2.** An `UPDATE` or `DELETE` plan interposes a `Collect` (with the
table schema and the pager's page size) between the scan and the DML sink
exactly when the scan under any `Filter` wrappers is a `SeqScan`,
`RangeScan` or `LogicalOrScan`; when it is an `ExactMatch` or a `KeyScan`
the scan is passed to the sink unwrapped. -/
theorem update_delete_collect_iff_cursor_scan (source : Plan)
    (assignments : List Assignment) (schema : Schema) (page_size : Nat) :
    (isCursorScan (underlying_scan source) = true ↔
        generate_update_plan source assignments schema page_size =
          some (.update (.collect source schema page_size) assignments)) ∧
      (isCursorScan (underlying_scan source) = true ↔
        generate_delete_plan source schema page_size =
          some (.delete (.collect source schema page_size))) ∧
      (isBufferedScan (underlying_scan source) = true →
        generate_update_plan source assignments schema page_size =
          some (.update source assignments) ∧
        generate_delete_plan source schema page_size = some (.delete source)) := by
  have hnc := needs_collection_eq source
  have hne := collect_ne_self source schema page_size
  by_cases hcur : isCursorScan (underlying_scan source) = true
  · have hbuf : isBufferedScan (underlying_scan source) = false := by
      cases hu : underlying_scan source <;> simp_all [isCursorScan, isBufferedScan]
    simp [generate_update_plan, generate_delete_plan, hnc, hcur, hbuf]
  · by_cases hbuf : isBufferedScan (underlying_scan source) = true
    · simp [generate_update_plan, generate_delete_plan, hnc, hcur, hbuf]
      exact fun h => hne h.symm
    · simp [generate_update_plan, generate_delete_plan, hnc, hcur, hbuf]

/-- Witness for C2: a filtered sequential scan is collected. -/
theorem update_delete_collect_iff_cursor_scan_witness :
    isCursorScan (underlying_scan
        (Plan.filter (.value (.bool true)) ⟨[]⟩ (Plan.seqScan "users"))) = true ∧
      generate_update_plan
          (Plan.filter (.value (.bool true)) ⟨[]⟩ (Plan.seqScan "users")) [] ⟨[]⟩ 4096 =
        some (.update
          (.collect (Plan.filter (.value (.bool true)) ⟨[]⟩ (Plan.seqScan "users")) ⟨[]⟩
            4096) []) :=
  ⟨rfl,
    (update_delete_collect_iff_cursor_scan
        (Plan.filter (.value (.bool true)) ⟨[]⟩ (Plan.seqScan "users")) [] ⟨[]⟩
        4096).1.mp rfl⟩

/-- **C3 (counterexample).** In the plan the repository's own planner test
`generate_logical_or_scan_plan` asserts, every sub-scan of the
`LogicalOrScan` emits table keys only, but the queue order does *not*
match the textual order of the disjuncts: the scan for `email = 'f@f.com'`
(textually last) sits before the scan for `email > 't@t.com'`. -/
theorem logical_or_scan_textual_order_fails :
    or_scan_expected_scans.all Plan.emitsTableKeyOnly = true ∧
      or_scan_expected_scans.map Plan.scanExpr ≠ or_scan_disjuncts.map some :=
  ⟨by decide, by decide⟩

/-- **C3 (amended).** All sub-scans of the produced `LogicalOrScan` have
`emit_table_key_only = true`, and the queue holds exactly one sub-scan per
disjunct — but grouped by scanned relation (the primary-key scans first,
then the unique-index scans), the scans of one relation ordered by their
key bounds rather than by textual disjunct position. -/
theorem logical_or_scan_grouped_order :
    or_scan_expected_scans.all Plan.emitsTableKeyOnly = true ∧
      (or_scan_expected_scans.map Plan.scanExpr).Perm (or_scan_disjuncts.map some) ∧
      or_scan_expected_scans.map Plan.scanRelation =
        [some (Relation.table "users"), some (Relation.table "users"),
          some (Relation.table "users"), some (Relation.index "users_email_uq_index"),
          some (Relation.index "users_email_uq_index"),
          some (Relation.index "users_email_uq_index")] ∧
      or_scan_expected_scans.map Plan.scanExpr =
        [some or_disjunct_a, some or_disjunct_b, some or_disjunct_c, some or_disjunct_d,
          some or_disjunct_f, some or_disjunct_e] :=
  ⟨by decide, by decide, by decide, by decide⟩

/-- **C4.** A `SELECT` plan gets no `Sort`/`Collect` stage exactly when
`order_by` is empty or is the singleton identifier of the table's first
column (the source plan is passed through unchanged, possibly under the
final projection); otherwise the source is wrapped in
`Collect { mem_buf_size := page_size }` inside
`Sort { input_buffers := DEFAULT_SORT_INPUT_BUFFERS }` (with
`SortKeysGen` in between exactly when some order-by entry is not a plain
identifier). -/
theorem select_sort_stage_iff (scan : Plan) (table_schema : Schema) (page_size : Nat)
    (columns order_by : List Expression) (p : Plan)
    (h : generate_select_plan scan table_schema page_size columns order_by = .ok p) :
    ((order_by = [] ∨ ∃ c0 cs, table_schema.columns = c0 :: cs ∧
          order_by = [Expression.identifier c0.name]) →
        (p = scan ∨ ∃ os, p = .project table_schema os columns scan)) ∧
      ((order_by ≠ [] ∧ ∀ c0 cs, table_schema.columns = c0 :: cs →
          order_by ≠ [Expression.identifier c0.name]) →
        ∃ sort_schema sort_keys_indexes collect_source,
          (collect_source = scan ∨
            ∃ gen_exprs, collect_source = .sortKeysGen gen_exprs table_schema scan) ∧
          (p = Plan.sort (Plan.collect collect_source sort_schema page_size)
              ⟨table_schema, sort_schema, sort_keys_indexes⟩ page_size
              DEFAULT_SORT_INPUT_BUFFERS ∨
            ∃ os, p = .project table_schema os columns
              (Plan.sort (Plan.collect collect_source sort_schema page_size)
                ⟨table_schema, sort_schema, sort_keys_indexes⟩ page_size
                DEFAULT_SORT_INPUT_BUFFERS))) := by
  by_cases hob : order_by.isEmpty
  · have hob' : order_by = [] := by simpa [List.isEmpty_iff] using hob
    cases hout : buildOutputSchema table_schema columns with
    | error e => simp [generate_select_plan, hob, hout, bind, Except.bind] at h
    | ok os =>
      refine ⟨fun _ => ?_, fun hpre => absurd hob' hpre.1⟩
      simp only [generate_select_plan, hob, hout, if_true, bind, Except.bind,
        Bool.false_eq_true, if_false] at h
      by_cases hpe : table_schema = (⟨os⟩ : Schema)
      · rw [if_pos hpe] at h
        injection h with h1
        exact Or.inl h1.symm
      · rw [if_neg hpe] at h
        injection h with h1
        exact Or.inr ⟨⟨os⟩, h1.symm⟩
  · cases htab : table_schema.columns with
    | nil => simp [generate_select_plan, hob, htab, bind, Except.bind] at h
    | cons c0 cs =>
      by_cases hid : order_by = [Expression.identifier c0.name]
      · cases hout : buildOutputSchema table_schema columns with
        | error e => simp [generate_select_plan, hob, htab, hid, hout, bind, Except.bind] at h
        | ok os =>
          refine ⟨fun _ => ?_, fun hpre => absurd hid (hpre.2 c0 cs rfl)⟩
          simp only [generate_select_plan, hob, htab, hid, hout, if_true, bind,
            Except.bind, Bool.false_eq_true, if_false] at h
          by_cases hpe : table_schema = (⟨os⟩ : Schema)
          · rw [if_pos hpe] at h
            injection h with h1
            exact Or.inl h1.symm
          · rw [if_neg hpe] at h
            injection h with h1
            exact Or.inr ⟨⟨os⟩, h1.symm⟩
      · cases hbs : buildSortKeys table_schema table_schema order_by with
        | error e => simp [generate_select_plan, hob, htab, hid, hbs, bind, Except.bind] at h
        | ok pr =>
          obtain ⟨ss, ski⟩ := pr
          cases hout : buildOutputSchema table_schema columns with
          | error e =>
            simp [generate_select_plan, hob, htab, hid, hbs, hout, bind, Except.bind] at h
          | ok os =>
            refine ⟨fun hpre => ?_, fun _ => ?_⟩
            · rcases hpre with h1 | ⟨c0x, csx, hcol, hobeq⟩
              · exact absurd h1 (by simpa [List.isEmpty_iff] using hob)
              · injection hcol with hc1 hc2
                subst hc1
                exact absurd hobeq hid
            · simp only [generate_select_plan, hob, htab, hid, hbs, hout, bind,
                Except.bind, Bool.false_eq_true, if_false] at h
              refine ⟨ss, ski,
                if ss.len > table_schema.len then
                  Plan.sortKeysGen
                    (order_by.filter fun e =>
                      match e with
                      | .identifier _ => false
                      | _ => true)
                    table_schema scan
                else scan, ?_, ?_⟩
              · by_cases hlen : ss.len > table_schema.len
                · rw [if_pos hlen]
                  exact Or.inr ⟨_, rfl⟩
                · rw [if_neg hlen]
                  exact Or.inl rfl
              · by_cases hpe : table_schema = (⟨os⟩ : Schema)
                · rw [if_pos hpe] at h
                  injection h with h1
                  exact Or.inl h1.symm
                · rw [if_neg hpe] at h
                  injection h with h1
                  exact Or.inr ⟨⟨os⟩, h1.symm⟩

/-- Witness for C4: `SELECT id, name FROM users ORDER BY name` (primary
key `id`) produces the `Sort` over `Collect` chain around the bare
sequential scan. -/
theorem select_sort_stage_iff_witness :
    ∃ sort_schema sort_keys_indexes collect_source,
      (collect_source = Plan.seqScan "users" ∨
        ∃ gen_exprs, collect_source = .sortKeysGen gen_exprs
          ⟨[⟨"id", DataType.int, [Constraint.primaryKey]⟩,
            ⟨"name", DataType.varchar 255, []⟩]⟩ (Plan.seqScan "users")) ∧
      (Plan.sort
          (Plan.collect (Plan.seqScan "users")
            ⟨[⟨"id", DataType.int, [Constraint.primaryKey]⟩,
              ⟨"name", DataType.varchar 255, []⟩]⟩ 4096)
          ⟨⟨[⟨"id", DataType.int, [Constraint.primaryKey]⟩,
              ⟨"name", DataType.varchar 255, []⟩]⟩,
            ⟨[⟨"id", DataType.int, [Constraint.primaryKey]⟩,
              ⟨"name", DataType.varchar 255, []⟩]⟩, [1]⟩ 4096
          DEFAULT_SORT_INPUT_BUFFERS =
          Plan.sort (Plan.collect collect_source sort_schema 4096)
            ⟨⟨[⟨"id", DataType.int, [Constraint.primaryKey]⟩,
                ⟨"name", DataType.varchar 255, []⟩]⟩, sort_schema, sort_keys_indexes⟩
            4096 DEFAULT_SORT_INPUT_BUFFERS ∨
        ∃ os, Plan.sort
            (Plan.collect (Plan.seqScan "users")
              ⟨[⟨"id", DataType.int, [Constraint.primaryKey]⟩,
                ⟨"name", DataType.varchar 255, []⟩]⟩ 4096)
            ⟨⟨[⟨"id", DataType.int, [Constraint.primaryKey]⟩,
                ⟨"name", DataType.varchar 255, []⟩]⟩,
              ⟨[⟨"id", DataType.int, [Constraint.primaryKey]⟩,
                ⟨"name", DataType.varchar 255, []⟩]⟩, [1]⟩ 4096
            DEFAULT_SORT_INPUT_BUFFERS =
          Plan.project
            ⟨[⟨"id", DataType.int, [Constraint.primaryKey]⟩,
              ⟨"name", DataType.varchar 255, []⟩]⟩ os
            [Expression.identifier "id", Expression.identifier "name"]
            (Plan.sort (Plan.collect collect_source sort_schema 4096)
              ⟨⟨[⟨"id", DataType.int, [Constraint.primaryKey]⟩,
                  ⟨"name", DataType.varchar 255, []⟩]⟩, sort_schema, sort_keys_indexes⟩
              4096 DEFAULT_SORT_INPUT_BUFFERS)) :=
  (select_sort_stage_iff (Plan.seqScan "users")
      ⟨[⟨"id", DataType.int, [Constraint.primaryKey]⟩, ⟨"name", DataType.varchar 255, []⟩]⟩
      4096 [Expression.identifier "id", Expression.identifier "name"]
      [Expression.identifier "name"]
      (Plan.sort
        (Plan.collect (Plan.seqScan "users")
          ⟨[⟨"id", DataType.int, [Constraint.primaryKey]⟩,
            ⟨"name", DataType.varchar 255, []⟩]⟩ 4096)
        ⟨⟨[⟨"id", DataType.int, [Constraint.primaryKey]⟩,
            ⟨"name", DataType.varchar 255, []⟩]⟩,
          ⟨[⟨"id", DataType.int, [Constraint.primaryKey]⟩,
            ⟨"name", DataType.varchar 255, []⟩]⟩, [1]⟩ 4096
        DEFAULT_SORT_INPUT_BUFFERS) rfl).2
    ⟨by decide, fun c0 cs hc => by injection hc with h1 h2; subst h1; decide⟩

end Mkdb
